import Mathlib

/-!
Shallow embedding of the foreman workflow-state module
(internal/state/state.go, internal/config ValidateWorkflow,
internal/project SyncPhasesToState) and proofs about its
gate, stage and phase operations.

Go maps from stage name to gate are embedded as association lists with
first-occurrence lookup and in-place update (insert at the tail when the
key is absent), matching map semantics for all states a Go map can denote.
Go methods that mutate the receiver and return an error are embedded as
functions returning the final receiver value paired with an optional
error, so that partial mutation on a failing call is observable.
time.Now() is abstracted by a numeric timestamp argument.
-/

namespace Foreman

/-- Gate of internal/state/state.go: status is one of open, pending-review,
approved, blocked; approvedAt is nil (none) when not approved. -/
structure Gate where
  status : String
  approvedAt : Option Nat
  approvedBy : String
  reason : String
deriving DecidableEq, Repr

/-- Phase of internal/state/state.go: status is planned, in-progress or done. -/
structure Phase where
  pname : String
  pstatus : String
deriving DecidableEq, Repr

/-- State of internal/state/state.go (the state.yaml schema). -/
structure State where
  currentStage : String
  gates : List (String × Gate)
  phases : List Phase
  quickMode : Bool
  quickTask : String
  confidence : Int
  workflow : List String
  minimalMode : Bool
deriving DecidableEq, Repr

/-- Errors returned by the embedded operations; each constructor stands for
one distinct fmt.Errorf message of the source. -/
inductive Err where
  /-- "stage %s not found" -/
  | notFound (stage : String)
  /-- "gate %s is %s, cannot approve" -/
  | cannotApprove (stage status : String)
  /-- "gate %s is %s, can only reject pending-review gates" -/
  | cannotReject (stage status : String)
  /-- "invalid gate status: %s" -/
  | invalidGateStatus (status : String)
  /-- "invalid phase status: %s" -/
  | invalidPhaseStatus (status : String)
  /-- "phase %s not found" -/
  | phaseNotFound (pname : String)
  /-- "cannot advance: current stage gate not approved" -/
  | illegalTransition
  /-- "already at final stage" -/
  | terminalStage
  /-- "workflow cannot be empty" -/
  | emptyWorkflow
  /-- "workflow must include 'implementation' stage" -/
  | missingImplementation
  /-- "invalid workflow stage: %s" -/
  | invalidWorkflowStage (stage : String)
deriving DecidableEq, Repr

/-- var Stages: the ordered stage list of the full workflow. -/
def Stages : List String := ["requirements", "design", "phases", "implementation"]

/-- var QuickStages: the stages of quick mode. -/
def QuickStages : List String := ["requirements", "implementation"]

/-- IsValidGateStatus of state.go. -/
def IsValidGateStatus (status : String) : Bool :=
  ["open", "pending-review", "approved", "blocked"].contains status

/-- IsValidPhaseStatus of state.go. -/
def IsValidPhaseStatus (status : String) : Bool :=
  ["planned", "in-progress", "done"].contains status

/-- First index of stage in stages, -1 when absent: the loop shared by
GetStageIndex, GetStageIndexForMode and GetStageIndexInWorkflow. -/
def indexIn : List String → String → Int
  | [], _ => -1
  | s :: rest, stage =>
    if s = stage then 0
    else
      let r := indexIn rest stage
      if r = -1 then -1 else r + 1

/-- Successor of stage in stages per the source pattern: empty string when the
stage is absent or last ("if idx == -1 || idx >= len(stages)-1 { return \x22\x22 }"). -/
def nextIn (stages : List String) (stage : String) : String :=
  let idx := indexIn stages stage
  if idx = -1 ∨ idx ≥ (stages.length : Int) - 1 then ""
  else stages.getD (idx + 1).toNat ""

/-- GetNextStageForMode of state.go: next stage respecting quick mode. -/
def GetNextStageForMode (stage : String) (quickMode : Bool) : String :=
  nextIn (if quickMode then QuickStages else Stages) stage

/-- GetActiveStages of state.go: custom workflow first, then quick mode,
then the full list. -/
def State.GetActiveStages (s : State) : List String :=
  if s.workflow.length > 0 then s.workflow
  else if s.quickMode then QuickStages
  else Stages

/-- GetStageIndexInWorkflow of state.go. -/
def State.GetStageIndexInWorkflow (s : State) (stage : String) : Int :=
  indexIn s.GetActiveStages stage

/-- GetNextStageInWorkflow of state.go. -/
def State.GetNextStageInWorkflow (s : State) (stage : String) : String :=
  nextIn s.GetActiveStages stage

/-- IsStageInWorkflow of state.go. -/
def State.IsStageInWorkflow (s : State) (stage : String) : Bool :=
  s.GetStageIndexInWorkflow stage ≥ 0

/-- Lookup in the gates map (s.Gates[stage]; nil becomes none). -/
def lookupGate : List (String × Gate) → String → Option Gate
  | [], _ => none
  | (k, g) :: rest, stage => if k = stage then some g else lookupGate rest stage

/-- Write through the gates map: replace the entry of the key when present
(pointer mutation), append a fresh entry otherwise (map insert). -/
def updateGate : List (String × Gate) → String → Gate → List (String × Gate)
  | [], stage, g => [(stage, g)]
  | (k, g') :: rest, stage, g =>
    if k = stage then (stage, g) :: rest
    else (k, g') :: updateGate rest stage g

/-- CanAdvanceStage of state.go. -/
def State.CanAdvanceStage (s : State) : Bool :=
  match lookupGate s.gates s.currentStage with
  | some g => g.status = "approved"
  | none => false

/-- AdvanceToNextStage of state.go: workflow-aware next stage with a
fallback to GetNextStageForMode, then the next gate is opened and its
rejection reason cleared. -/
def State.AdvanceToNextStage (s : State) : State × Option Err :=
  if ¬ s.CanAdvanceStage then (s, some .illegalTransition)
  else
    let n1 := s.GetNextStageInWorkflow s.currentStage
    let nextStage := if n1 = "" then GetNextStageForMode s.currentStage s.quickMode else n1
    if nextStage = "" then (s, some .terminalStage)
    else
      let gates' :=
        match lookupGate s.gates nextStage with
        | none => updateGate s.gates nextStage ⟨"open", none, "", ""⟩
        | some g => updateGate s.gates nextStage { g with status := "open", reason := "" }
      ({ s with currentStage := nextStage, gates := gates' }, none)

/-- ApproveGate of state.go. The gate must be open or pending-review; it is
set to approved with timestamp and approver and its reason cleared; when the
stage is the current one and GetNextStageForMode yields a successor,
AdvanceToNextStage runs on the already-mutated state. -/
def State.ApproveGate (s : State) (stage approvedBy : String) (now : Nat) : State × Option Err :=
  match lookupGate s.gates stage with
  | none => (s, some (.notFound stage))
  | some gate =>
    if gate.status ≠ "open" ∧ gate.status ≠ "pending-review" then
      (s, some (.cannotApprove stage gate.status))
    else
      let s' : State :=
        { s with gates := updateGate s.gates stage ⟨"approved", some now, approvedBy, ""⟩ }
      if stage = s.currentStage then
        let nextStage := GetNextStageForMode stage s.quickMode
        if nextStage ≠ "" then s'.AdvanceToNextStage
        else (s', none)
      else (s', none)

/-- RejectGate of state.go: only a pending-review gate can be rejected; it
goes back to open, approval metadata cleared, reason recorded. -/
def State.RejectGate (s : State) (stage reason : String) : State × Option Err :=
  match lookupGate s.gates stage with
  | none => (s, some (.notFound stage))
  | some gate =>
    if gate.status ≠ "pending-review" then
      (s, some (.cannotReject stage gate.status))
    else
      (⟨s.currentStage, updateGate s.gates stage ⟨"open", none, "", reason⟩,
        s.phases, s.quickMode, s.quickTask, s.confidence, s.workflow, s.minimalMode⟩, none)

/-- SetGateStatus of state.go: any valid status may be set; a non-approved
status clears the approval metadata. -/
def State.SetGateStatus (s : State) (stage status : String) : State × Option Err :=
  if ¬ IsValidGateStatus status then (s, some (.invalidGateStatus status))
  else
    match lookupGate s.gates stage with
    | none => (s, some (.notFound stage))
    | some gate =>
      let gate' :=
        if status ≠ "approved" then { gate with status := status, approvedAt := none, approvedBy := "" }
        else { gate with status := status }
      ({ s with gates := updateGate s.gates stage gate' }, none)

/-- In-place status write through the pointer GetPhase returns: the first
phase of the given name gets the new status. -/
def setFirstPhase : List Phase → String → String → List Phase
  | [], _, _ => []
  | p :: rest, pname, status =>
    if p.pname = pname then { p with pstatus := status } :: rest
    else p :: setFirstPhase rest pname status

/-- SetPhaseStatus of state.go: the status is validated first, then the
phase is looked up by name. -/
def State.SetPhaseStatus (s : State) (pname status : String) : State × Option Err :=
  if ¬ IsValidPhaseStatus status then (s, some (.invalidPhaseStatus status))
  else if (s.phases.find? (fun p => p.pname = pname)).isNone then
    (s, some (.phaseNotFound pname))
  else
    ({ s with phases := setFirstPhase s.phases pname status }, none)

/-- NewDefault of state.go. -/
def NewDefault : State :=
  { currentStage := "requirements"
  , gates := [("requirements", ⟨"open", none, "", ""⟩),
              ("design", ⟨"blocked", none, "", ""⟩),
              ("phases", ⟨"blocked", none, "", ""⟩),
              ("implementation", ⟨"blocked", none, "", ""⟩)]
  , phases := []
  , quickMode := false
  , quickTask := ""
  , confidence := 0
  , workflow := []
  , minimalMode := false }

/-- NewWithWorkflow of state.go: an empty workflow silently becomes the full
Stages list; gates are built over the (substituted) workflow; quick mode is
set exactly when that workflow has at most two stages. No validation runs. -/
def NewWithWorkflow (workflow : List String) (confidence : Int) (minimal : Bool) (now : Nat) : State :=
  let wf := if workflow.length = 0 then Stages else workflow
  let init : List (String × Gate) × String := ([], wf.getD 0 "")
  let built :=
    if minimal then
      wf.enum.foldl (fun acc p =>
        if p.1 = wf.length - 1 then (updateGate acc.1 p.2 ⟨"open", none, "", ""⟩, p.2)
        else (updateGate acc.1 p.2 ⟨"approved", some now, "auto", ""⟩, acc.2)) init
    else
      wf.enum.foldl (fun acc p =>
        if p.1 = 0 then (updateGate acc.1 p.2 ⟨"open", none, "", ""⟩, acc.2)
        else (updateGate acc.1 p.2 ⟨"blocked", none, "", ""⟩, acc.2)) init
  { currentStage := built.2
  , gates := built.1
  , phases := []
  , quickMode := decide (wf.length ≤ 2)
  , quickTask := ""
  , confidence := confidence
  , workflow := wf
  , minimalMode := minimal }

/-- ValidateWorkflow of internal/config: empty, missing implementation, or a
stage outside the recognized set is rejected; nothing else is. -/
def ValidateWorkflow (workflow : List String) : Option Err :=
  if workflow.length = 0 then some .emptyWorkflow
  else if ! workflow.contains "implementation" then some .missingImplementation
  else
    match workflow.find? (fun st => ! Stages.contains st) with
    | some st => some (.invalidWorkflowStage st)
    | none => none

/-- The status the Go map existingPhases of SyncPhasesToState associates to
a name: the status of the last tracked phase of that name, none when the
name is untracked. -/
def lastStatus : List Phase → String → Option String
  | [], _ => none
  | p :: rest, n =>
    match lastStatus rest n with
    | some st => some st
    | none => if p.pname = n then some p.pstatus else none

/-- The pure reconciliation step of SyncPhasesToState
(internal/project/project.go): given the discovered phase names, rebuild the
phase list in discovered order, keeping a tracked status and defaulting new
names to planned. Directory discovery itself is filesystem I/O and stays
outside the embedding. -/
def syncPhases (phaseNames : List String) (prior : List Phase) : List Phase :=
  phaseNames.map (fun n => ⟨n, (lastStatus prior n).getD "planned"⟩)

/-- The gate metadata invariant of the spec: approval timestamp present and
approver identity non-empty exactly when the status is approved. -/
def GateInv (g : Gate) : Prop :=
  (g.approvedAt ≠ none ∧ g.approvedBy ≠ "") ↔ g.status = "approved"

instance (g : Gate) : Decidable (GateInv g) := by
  unfold GateInv; infer_instance

/-- The invariant over every gate of a state. -/
def StateInv (s : State) : Prop := ∀ p ∈ s.gates, GateInv p.2

instance (s : State) : Decidable (StateInv s) :=
  List.decidableBAll _ s.gates

/-- The forward half of the gate invariant: an approved gate carries a
timestamp and a non-empty approver identity. -/
def GateInvFwd (g : Gate) : Prop :=
  g.status = "approved" → (g.approvedAt ≠ none ∧ g.approvedBy ≠ "")

instance (g : Gate) : Decidable (GateInvFwd g) := by
  unfold GateInvFwd; infer_instance

/-- The forward half over every gate of a state. -/
def StateInvFwd (s : State) : Prop := ∀ p ∈ s.gates, GateInvFwd p.2

instance (s : State) : Decidable (StateInvFwd s) :=
  List.decidableBAll _ s.gates

theorem lookupGate_updateGate_self (gs : List (String × Gate)) (k : String) (g : Gate) :
    lookupGate (updateGate gs k g) k = some g := by
  induction gs with
  | nil => simp [updateGate, lookupGate]
  | cons p rest ih =>
    obtain ⟨k', g'⟩ := p
    by_cases h : k' = k
    · simp [updateGate, h, lookupGate]
    · simp [updateGate, h, lookupGate, ih]

theorem lookupGate_updateGate_ne (gs : List (String × Gate)) (k k' : String) (g : Gate)
    (h : k' ≠ k) : lookupGate (updateGate gs k g) k' = lookupGate gs k' := by
  induction gs with
  | nil => simp [updateGate, lookupGate, Ne.symm h]
  | cons p rest ih =>
    obtain ⟨k0, g0⟩ := p
    by_cases hk : k0 = k
    · subst hk
      simp [updateGate, lookupGate, Ne.symm h]
    · simp only [updateGate, if_neg hk, lookupGate]
      by_cases hk' : k0 = k'
      · simp [hk']
      · simp [hk', ih]

theorem mem_updateGate (gs : List (String × Gate)) (k : String) (g : Gate)
    (p : String × Gate) (hp : p ∈ updateGate gs k g) : p = (k, g) ∨ p ∈ gs := by
  induction gs with
  | nil => simpa [updateGate] using hp
  | cons q rest ih =>
    obtain ⟨k0, g0⟩ := q
    by_cases hk : k0 = k
    · simp only [updateGate, if_pos hk, List.mem_cons] at hp
      rcases hp with h | h
      · exact Or.inl h
      · exact Or.inr (List.mem_cons_of_mem _ h)
    · simp only [updateGate, if_neg hk, List.mem_cons] at hp
      rcases hp with h | h
      · exact Or.inr (by simp [h])
      · rcases ih h with h' | h'
        · exact Or.inl h'
        · exact Or.inr (List.mem_cons_of_mem _ h')

/-- The gate map AdvanceToNextStage writes when advancing to nxt. -/
def advGates (s : State) (nxt : String) : List (String × Gate) :=
  match lookupGate s.gates nxt with
  | none => updateGate s.gates nxt ⟨"open", none, "", ""⟩
  | some g => updateGate s.gates nxt { g with status := "open", reason := "" }

/-- The stage AdvanceToNextStage selects: the workflow-aware next stage,
or the mode-based fallback when that is empty. -/
def advTarget (s : State) : String :=
  if s.GetNextStageInWorkflow s.currentStage = ""
  then GetNextStageForMode s.currentStage s.quickMode
  else s.GetNextStageInWorkflow s.currentStage

theorem advance_shape (s : State) :
    (s.CanAdvanceStage = false ∧ s.AdvanceToNextStage = (s, some Err.illegalTransition)) ∨
    (s.CanAdvanceStage = true ∧ advTarget s = "" ∧
      s.AdvanceToNextStage = (s, some Err.terminalStage)) ∨
    (s.CanAdvanceStage = true ∧ advTarget s ≠ "" ∧
      s.AdvanceToNextStage =
        ({ s with currentStage := advTarget s, gates := advGates s (advTarget s) }, none)) := by
  by_cases h1 : s.CanAdvanceStage
  · by_cases hw : s.GetNextStageInWorkflow s.currentStage = ""
    · by_cases hf : GetNextStageForMode s.currentStage s.quickMode = ""
      · right; left
        refine ⟨h1, by simp [advTarget, hw, hf], ?_⟩
        simp [State.AdvanceToNextStage, h1, hw, hf]
      · right; right
        refine ⟨h1, by simp [advTarget, hw, hf], ?_⟩
        simp [State.AdvanceToNextStage, h1, hw, hf, advGates, advTarget]
    · right; right
      refine ⟨h1, by simp [advTarget, hw], ?_⟩
      simp [State.AdvanceToNextStage, h1, hw, advGates, advTarget]
  · left
    exact ⟨by simpa using h1, by simp [State.AdvanceToNextStage, h1]⟩

theorem advance_no_err (s : State) (h1 : s.CanAdvanceStage = true)
    (h2 : GetNextStageForMode s.currentStage s.quickMode ≠ "") :
    (s.AdvanceToNextStage).2 = none := by
  rcases advance_shape s with ⟨hc, _⟩ | ⟨_, ht, _⟩ | ⟨_, _, heq⟩
  · rw [h1] at hc; exact absurd hc (by simp)
  · exfalso
    unfold advTarget at ht
    split_ifs at ht with hw
    · exact h2 ht
    · exact hw ht
  · rw [heq]

theorem advance_preserves_fwd (s : State) (h : StateInvFwd s) :
    StateInvFwd (s.AdvanceToNextStage).1 := by
  rcases advance_shape s with ⟨_, heq⟩ | ⟨_, _, heq⟩ | ⟨_, _, heq⟩
  · rw [heq]; exact h
  · rw [heq]; exact h
  · rw [heq]
    intro p hp
    unfold advGates at hp
    simp only at hp
    rcases hlk : lookupGate s.gates (advTarget s) with _ | g
    · rw [hlk] at hp
      rcases mem_updateGate _ _ _ _ hp with rfl | hmem
      · intro hap; exact absurd hap (by simp)
      · exact h p hmem
    · rw [hlk] at hp
      rcases mem_updateGate _ _ _ _ hp with rfl | hmem
      · intro hap; exact absurd hap (by simp)
      · exact h p hmem

theorem approve_shape (s : State) (stage approver : String) (now : Nat) :
    (lookupGate s.gates stage = none ∧
      s.ApproveGate stage approver now = (s, some (Err.notFound stage))) ∨
    (∃ g, lookupGate s.gates stage = some g ∧ g.status ≠ "open" ∧ g.status ≠ "pending-review" ∧
      s.ApproveGate stage approver now = (s, some (Err.cannotApprove stage g.status))) ∨
    (∃ g, lookupGate s.gates stage = some g ∧ (g.status = "open" ∨ g.status = "pending-review") ∧
      ((stage = s.currentStage ∧ GetNextStageForMode stage s.quickMode ≠ "" ∧
        s.ApproveGate stage approver now =
          ({ s with gates := updateGate s.gates stage ⟨"approved", some now, approver, ""⟩ } : State).AdvanceToNextStage) ∨
       ((stage ≠ s.currentStage ∨ GetNextStageForMode stage s.quickMode = "") ∧
        s.ApproveGate stage approver now =
          ({ s with gates := updateGate s.gates stage ⟨"approved", some now, approver, ""⟩ }, none)))) := by
  rcases hlk : lookupGate s.gates stage with _ | g
  · left
    exact ⟨rfl, by simp [State.ApproveGate, hlk]⟩
  · right
    have hmain : (g.status = "open" ∨ g.status = "pending-review") ∨
        (g.status ≠ "open" ∧ g.status ≠ "pending-review") := by tauto
    rcases hmain with hst | ⟨h1, h2⟩
    · right
      refine ⟨g, rfl, hst, ?_⟩
      have hok : ¬ (g.status ≠ "open" ∧ g.status ≠ "pending-review") := by tauto
      by_cases hcur : stage = s.currentStage
      · subst hcur
        by_cases hnext : GetNextStageForMode s.currentStage s.quickMode = ""
        · right
          exact ⟨Or.inr hnext, by simp [State.ApproveGate, hlk, hok, hnext]⟩
        · left
          exact ⟨rfl, hnext, by simp [State.ApproveGate, hlk, hok, hnext]⟩
      · right
        exact ⟨Or.inl hcur, by simp [State.ApproveGate, hlk, hok, hcur]⟩
    · left
      exact ⟨g, rfl, h1, h2, by simp [State.ApproveGate, hlk, h1, h2]⟩

/-- C6: for every ProjectState, GetActiveStages returns the explicit custom
workflow when one is configured (non-empty); otherwise the two-stage quick
list; otherwise the full four-stage list, in that precedence order. -/
theorem getActiveStages_precedence (s : State) :
    (s.workflow ≠ [] → s.GetActiveStages = s.workflow) ∧
    (s.workflow = [] → s.quickMode = true →
      s.GetActiveStages = ["requirements", "implementation"]) ∧
    (s.workflow = [] → s.quickMode = false →
      s.GetActiveStages = ["requirements", "design", "phases", "implementation"]) := by
  refine ⟨fun h => ?_, fun h hq => ?_, fun h hq => ?_⟩
  · simp [State.GetActiveStages, List.length_pos.mpr h]
  · simp [State.GetActiveStages, h, hq, QuickStages]
  · simp [State.GetActiveStages, h, hq, Stages]

theorem getActiveStages_precedence_witness :
    NewDefault.GetActiveStages = ["requirements", "design", "phases", "implementation"] :=
  (getActiveStages_precedence NewDefault).2.2 rfl rfl

/-- C7: ValidateWorkflow fails exactly when the list is empty, omits
"implementation", or contains an unrecognized identifier; the position of
"implementation" is not constrained (an out-of-order list containing all
recognized members validates). -/
theorem validateWorkflow_spec :
    (∀ w : List String, (ValidateWorkflow w).isSome ↔
      (w = [] ∨ "implementation" ∉ w ∨
        ∃ st ∈ w, st ∉ (["requirements", "design", "phases", "implementation"] : List String))) ∧
    ValidateWorkflow ["implementation", "design", "phases", "requirements"] = none := by
  refine ⟨fun w => ?_, rfl⟩
  unfold ValidateWorkflow
  by_cases h1 : w.length = 0
  · rw [List.length_eq_zero] at h1
    simp [h1]
  · rw [if_neg h1]
    rw [List.length_eq_zero] at h1
    by_cases h2 : w.contains "implementation"
    · have himp : "implementation" ∈ w := by simpa using h2
      rw [if_neg (by simpa using himp)]
      rcases hf : w.find? (fun st => ! Stages.contains st) with _ | st
      · rw [List.find?_eq_none] at hf
        have hall : ∀ st ∈ w, st ∈ (["requirements", "design", "phases", "implementation"] : List String) := by
          intro st hst
          have hmem' : st ∈ Stages := by simpa using hf st hst
          exact hmem'
        simp only [Option.isSome_none, Bool.false_eq_true, false_iff]
        push_neg
        exact ⟨h1, himp, hall⟩
      · have hmem := List.mem_of_find?_eq_some hf
        have hpred := List.find?_some hf
        have hstg : st ∉ Stages := by simpa using hpred
        simp only [Option.isSome_some, true_iff]
        exact Or.inr (Or.inr ⟨st, hmem, hstg⟩)
    · have hni : "implementation" ∉ w := by simpa using h2
      rw [if_pos (by simpa using hni)]
      simp [hni]

theorem validateWorkflow_spec_witness : (ValidateWorkflow ["design"]).isSome :=
  (validateWorkflow_spec.1 ["design"]).mpr (by decide)

/-- C10: NewWithWorkflow never fails; an empty workflow list is silently
replaced by the full four-stage workflow (though ValidateWorkflow would
reject the empty list), and QuickMode is set exactly when the resulting
workflow has at most two stages. -/
theorem newWithWorkflow_no_validation (workflow : List String) (confidence : Int) (minimal : Bool) (now : Nat) :
    ((NewWithWorkflow [] confidence minimal now).workflow = ["requirements", "design", "phases", "implementation"] ∧
     (NewWithWorkflow [] confidence minimal now).quickMode = false ∧
     (ValidateWorkflow []).isSome) ∧
    ((NewWithWorkflow workflow confidence minimal now).quickMode = true ↔
      (NewWithWorkflow workflow confidence minimal now).workflow.length ≤ 2) := by
  constructor
  · refine ⟨?_, ?_, rfl⟩ <;> cases minimal <;> rfl
  · unfold NewWithWorkflow
    cases minimal <;> simp

theorem newWithWorkflow_no_validation_witness :
    (NewWithWorkflow ["design", "implementation"] 0 false 0).quickMode = true :=
  (newWithWorkflow_no_validation ["design", "implementation"] 0 false 0).2.mpr (by decide)

theorem setFirstPhase_spec (ps : List Phase) :
    ∀ pname status : String, (∃ p ∈ ps, p.pname = pname) →
    (setFirstPhase ps pname status).length = ps.length ∧
    ∃ i, i < ps.length ∧ (ps.getD i ⟨"", ""⟩).pname = pname ∧
      (setFirstPhase ps pname status).getD i ⟨"", ""⟩ = ⟨pname, status⟩ ∧
      ∀ j, j ≠ i → (setFirstPhase ps pname status).getD j ⟨"", ""⟩ = ps.getD j ⟨"", ""⟩ := by
  induction ps with
  | nil => intro pname status hex; simp at hex
  | cons p rest ih =>
    intro pname status hex
    by_cases hp : p.pname = pname
    · refine ⟨by simp [setFirstPhase, hp], 0, by simp, by simpa using hp, ?_, ?_⟩
      · obtain ⟨nm, st⟩ := p
        simp only [Phase.mk.injEq] at hp ⊢
        simp [setFirstPhase, hp]
      · intro j hj
        cases j with
        | zero => exact absurd rfl hj
        | succ k => simp [setFirstPhase, hp]
    · have hex' : ∃ q ∈ rest, q.pname = pname := by
        rcases hex with ⟨q, hq, hqe⟩
        rcases List.mem_cons.mp hq with rfl | h
        · exact absurd hqe hp
        · exact ⟨q, h, hqe⟩
      obtain ⟨hlen, i, hi, hnm, hset, hother⟩ := ih pname status hex'
      refine ⟨by simp [setFirstPhase, hp, hlen], i + 1, by simpa using hi, by simpa using hnm, ?_, ?_⟩
      · simpa [setFirstPhase, hp] using hset
      · intro j hj
        cases j with
        | zero => simp [setFirstPhase, hp]
        | succ k =>
          have hk : k ≠ i := fun h => hj (by rw [h])
          simpa [setFirstPhase, hp] using hother k hk

/-- C9 counterexample: with no phases at all, SetPhaseStatus with an invalid
status fails with InvalidStatus, not with NotFound as the claim requires for
a missing phase name regardless of the status argument. -/
theorem setPhaseStatus_counterexample :
    (NewDefault.phases.find? (fun p => p.pname = "x")).isNone = true ∧
    NewDefault.SetPhaseStatus "x" "bogus" = (NewDefault, some (Err.invalidPhaseStatus "bogus")) ∧
    (NewDefault.SetPhaseStatus "x" "bogus").2 ≠ some (Err.phaseNotFound "x") :=
  ⟨rfl, rfl, by decide⟩

/-- C9 amended: SetPhaseStatus validates the status first, so an invalid
status yields InvalidStatus even when the phase is missing; NotFound arises
exactly when the status is valid and no phase has the name; with a valid
status and an existing phase of the name the call succeeds, and then only
the first phase of that name changes, and only its status. -/
theorem setPhaseStatus_spec (s : State) (pname status : String) :
    (IsValidPhaseStatus status = false →
      s.SetPhaseStatus pname status = (s, some (Err.invalidPhaseStatus status))) ∧
    (IsValidPhaseStatus status = true → (∀ p ∈ s.phases, p.pname ≠ pname) →
      s.SetPhaseStatus pname status = (s, some (Err.phaseNotFound pname))) ∧
    (∀ s', s.SetPhaseStatus pname status = (s', none) →
      s'.currentStage = s.currentStage ∧ s'.gates = s.gates ∧ s'.quickMode = s.quickMode ∧
      s'.workflow = s.workflow ∧ s'.phases.length = s.phases.length ∧
      ∃ i, i < s.phases.length ∧ (s.phases.getD i ⟨"", ""⟩).pname = pname ∧
        s'.phases.getD i ⟨"", ""⟩ = ⟨pname, status⟩ ∧
        ∀ j, j ≠ i → s'.phases.getD j ⟨"", ""⟩ = s.phases.getD j ⟨"", ""⟩) ∧
    (IsValidPhaseStatus status = true → (∃ p ∈ s.phases, p.pname = pname) →
      (s.SetPhaseStatus pname status).2 = none) := by
  refine ⟨fun hv => ?_, fun hv hnone => ?_, fun s' heq => ?_, fun hv hex => ?_⟩
  · simp [State.SetPhaseStatus, hv]
  · have hfind : (s.phases.find? (fun p => p.pname = pname)).isNone := by
      rw [Option.isNone_iff_eq_none, List.find?_eq_none]
      intro p hp
      simpa using hnone p hp
    simp [State.SetPhaseStatus, hv, hfind]
  · unfold State.SetPhaseStatus at heq
    by_cases hv : IsValidPhaseStatus status
    · rw [if_neg (by simp [hv])] at heq
      rcases hf : s.phases.find? (fun p => p.pname = pname) with _ | p
      · rw [if_pos (by simp [hf])] at heq
        exact absurd (congrArg Prod.snd heq) (by simp)
      · rw [if_neg (by simp [hf])] at heq
        have hs' : ({ s with phases := setFirstPhase s.phases pname status } : State) = s' :=
          congrArg Prod.fst heq
        subst hs'
        have hmem := List.mem_of_find?_eq_some hf
        have hpred : p.pname = pname := by simpa using List.find?_some hf
        obtain ⟨hlen, i, hi, hnm, hset, hother⟩ :=
          setFirstPhase_spec s.phases pname status ⟨p, hmem, hpred⟩
        exact ⟨rfl, rfl, rfl, rfl, hlen, i, hi, hnm, hset, hother⟩
    · rw [if_pos (by simp [hv])] at heq
      exact absurd (congrArg Prod.snd heq) (by simp)
  · unfold State.SetPhaseStatus
    rw [if_neg (by simp [hv])]
    have hfs : (s.phases.find? (fun p => p.pname = pname)).isNone = false := by
      rcases hex with ⟨p, hp, hpe⟩
      rcases hff : s.phases.find? (fun p => p.pname = pname) with _ | q
      · rw [List.find?_eq_none] at hff
        exact absurd (by simpa using hpe) (by simpa using hff p hp)
      · rw [hff]
        rfl
    rw [if_neg (by simp [hfs])]

def wC9state : State :=
  ⟨"phases", [], [⟨"1-setup", "planned"⟩, ⟨"2-api", "done"⟩], false, "", 0, [], false⟩

theorem setPhaseStatus_spec_witness :
    (wC9state.SetPhaseStatus "1-setup" "in-progress").2 = none ∧
    (wC9state.SetPhaseStatus "1-setup" "in-progress").1.phases.getD 0 ⟨"", ""⟩
      = ⟨"1-setup", "in-progress"⟩ ∧
    (wC9state.SetPhaseStatus "1-setup" "in-progress").1.phases.getD 1 ⟨"", ""⟩
      = ⟨"2-api", "done"⟩ ∧
    NewDefault.SetPhaseStatus "ghost" "done" = (NewDefault, some (Err.phaseNotFound "ghost")) := by
  have h := setPhaseStatus_spec wC9state "1-setup" "in-progress"
  have hok : (wC9state.SetPhaseStatus "1-setup" "in-progress").2 = none :=
    h.2.2.2 (by decide) ⟨⟨"1-setup", "planned"⟩, by decide, rfl⟩
  obtain ⟨-, -, -, -, -, i, hi, hnm, hset, hother⟩ :=
    h.2.2.1 (wC9state.SetPhaseStatus "1-setup" "in-progress").1 (Prod.ext rfl hok)
  have hizero : i = 0 := by
    have hlen : wC9state.phases.length = 2 := rfl
    rw [hlen] at hi
    rcases i with _ | _ | k
    · rfl
    · exact absurd hnm (by decide)
    · exact absurd hi (by omega)
  subst hizero
  refine ⟨hok, hset, ?_,
    (setPhaseStatus_spec NewDefault "ghost" "done").2.1 (by decide) (by decide)⟩
  have h1 := hother 1 (by decide)
  rw [h1]
  rfl

def cexC5state : State :=
  ⟨"requirements",
   [("requirements", ⟨"open", none, "", ""⟩), ("design", ⟨"open", none, "", ""⟩)],
   [], false, "", 0, ["requirements", "implementation"], false⟩

/-- C5 counterexample: a stage outside the active workflow but present in
the gates map is approved successfully instead of failing with NotFound. -/
theorem gateOps_notFound_counterexample :
    cexC5state.IsStageInWorkflow "design" = false ∧
    (cexC5state.ApproveGate "design" "auto" 2).2 = none := by decide

/-- C5 amended: ApproveGate, RejectGate and SetGateStatus (with a valid
status) fail with NotFound exactly when the gates map has no entry for the
stage, regardless of membership in the active workflow. -/
theorem gateOps_notFound_iff (s : State) (stage approver reason status : String) (now : Nat) :
    ((s.ApproveGate stage approver now).2 = some (Err.notFound stage) ↔ lookupGate s.gates stage = none) ∧
    ((s.RejectGate stage reason).2 = some (Err.notFound stage) ↔ lookupGate s.gates stage = none) ∧
    (IsValidGateStatus status = true →
      ((s.SetGateStatus stage status).2 = some (Err.notFound stage) ↔ lookupGate s.gates stage = none)) := by
  refine ⟨⟨fun h => ?_, fun h => ?_⟩, ⟨fun h => ?_, fun h => ?_⟩, fun hv => ⟨fun h => ?_, fun h => ?_⟩⟩
  · rcases approve_shape s stage approver now with ⟨hn, _⟩ | ⟨g, hg, _, _, heq⟩ | ⟨g, hg, _, hcase⟩
    · exact hn
    · rw [heq] at h; simp at h
    · rcases hcase with ⟨_, _, heq⟩ | ⟨_, heq⟩
      · rw [heq] at h
        rcases advance_shape ({ s with gates := updateGate s.gates stage ⟨"approved", some now, approver, ""⟩ } : State) with ⟨_, ha⟩ | ⟨_, _, ha⟩ | ⟨_, _, ha⟩ <;>
          rw [ha] at h <;> simp at h
      · rw [heq] at h; simp at h
  · simp [State.ApproveGate, h]
  · rcases hlk : lookupGate s.gates stage with _ | g
    · rfl
    · exfalso
      unfold State.RejectGate at h
      rw [hlk] at h
      by_cases hp : g.status = "pending-review" <;> simp [hp] at h
  · simp [State.RejectGate, h]
  · rcases hlk : lookupGate s.gates stage with _ | g
    · rfl
    · exfalso
      unfold State.SetGateStatus at h
      rw [if_neg (by simp [hv]), hlk] at h
      simp at h
  · simp [State.SetGateStatus, hv, h]

theorem gateOps_notFound_iff_witness :
    (NewDefault.SetGateStatus "ghost" "open").2 = some (Err.notFound "ghost") :=
  ((gateOps_notFound_iff NewDefault "ghost" "a" "r" "open" 0).2.2 (by decide)).mpr (by decide)


/-- C4: whenever ApproveGate, RejectGate, SetGateStatus or SetPhaseStatus
returns an error, the ProjectState is completely unchanged. -/
theorem failed_ops_unchanged (s : State) (stage pname approver reason gstatus pstatus : String) (now : Nat) :
    (∀ e, (s.ApproveGate stage approver now).2 = some e → (s.ApproveGate stage approver now).1 = s) ∧
    (∀ e, (s.RejectGate stage reason).2 = some e → (s.RejectGate stage reason).1 = s) ∧
    (∀ e, (s.SetGateStatus stage gstatus).2 = some e → (s.SetGateStatus stage gstatus).1 = s) ∧
    (∀ e, (s.SetPhaseStatus pname pstatus).2 = some e → (s.SetPhaseStatus pname pstatus).1 = s) := by
  refine ⟨fun e he => ?_, fun e he => ?_, fun e he => ?_, fun e he => ?_⟩
  · rcases approve_shape s stage approver now with ⟨_, heq⟩ | ⟨g, _, _, _, heq⟩ | ⟨g, hg, hst, hcase⟩
    · rw [heq]
    · rw [heq]
    · rcases hcase with ⟨hcur, hnext, heq⟩ | ⟨_, heq⟩
      · exfalso
        rw [heq] at he
        have hlk : lookupGate (updateGate s.gates stage ⟨"approved", some now, approver, ""⟩) s.currentStage
            = some ⟨"approved", some now, approver, ""⟩ := by
          rw [← hcur]; exact lookupGate_updateGate_self s.gates stage _
        have hcan : ({ s with gates := updateGate s.gates stage ⟨"approved", some now, approver, ""⟩ } : State).CanAdvanceStage = true := by
          unfold State.CanAdvanceStage
          rw [show ({ s with gates := updateGate s.gates stage ⟨"approved", some now, approver, ""⟩ } : State).gates
              = updateGate s.gates stage ⟨"approved", some now, approver, ""⟩ from rfl]
          rw [show ({ s with gates := updateGate s.gates stage ⟨"approved", some now, approver, ""⟩ } : State).currentStage
              = s.currentStage from rfl]
          rw [hlk]
          rfl
        have hmode : GetNextStageForMode ({ s with gates := updateGate s.gates stage ⟨"approved", some now, approver, ""⟩ } : State).currentStage
            ({ s with gates := updateGate s.gates stage ⟨"approved", some now, approver, ""⟩ } : State).quickMode ≠ "" := by
          rw [show ({ s with gates := updateGate s.gates stage ⟨"approved", some now, approver, ""⟩ } : State).currentStage
              = s.currentStage from rfl]
          rw [← hcur]
          exact hnext
        rw [advance_no_err _ hcan hmode] at he
        exact Option.noConfusion he
      · rw [heq] at he
        exact absurd he (by simp)
  · rcases hlk : lookupGate s.gates stage with _ | g
    · unfold State.RejectGate
      rw [hlk]
    · unfold State.RejectGate at he ⊢
      rw [hlk] at he ⊢
      by_cases hp : g.status = "pending-review"
      · simp [hp] at he
      · simp [hp]
  · by_cases hv : IsValidGateStatus gstatus
    · rcases hlk : lookupGate s.gates stage with _ | g
      · unfold State.SetGateStatus
        rw [if_neg (by simp [hv]), hlk]
      · exfalso
        unfold State.SetGateStatus at he
        rw [if_neg (by simp [hv]), hlk] at he
        simp at he
    · unfold State.SetGateStatus
      rw [if_pos (by simp [hv])]
  · by_cases hv : IsValidPhaseStatus pstatus
    · by_cases hnf : (s.phases.find? (fun p => p.pname = pname)).isNone
      · unfold State.SetPhaseStatus
        rw [if_neg (by simp [hv]), if_pos hnf]
      · exfalso
        unfold State.SetPhaseStatus at he
        rw [if_neg (by simp [hv]), if_neg hnf] at he
        simp at he
    · unfold State.SetPhaseStatus
      rw [if_pos (by simp [hv])]

theorem failed_ops_unchanged_witness :
    (NewDefault.RejectGate "requirements" "nope").1 = NewDefault :=
  (failed_ops_unchanged NewDefault "requirements" "x" "a" "nope" "open" "planned" 0).2.1
    (Err.cannotReject "requirements" "open") (by decide)

theorem lastStatus_eq_none (prior : List Phase) (n : String)
    (h : ∀ p ∈ prior, p.pname ≠ n) : lastStatus prior n = none := by
  induction prior with
  | nil => rfl
  | cons p rest ih =>
    have hr := ih (fun q hq => h q (List.mem_cons_of_mem _ hq))
    have hp : p.pname ≠ n := h p (List.mem_cons_self _ _)
    simp [lastStatus, hr, hp]

theorem lastStatus_of_mem_nodup (prior : List Phase)
    (hnd : (prior.map Phase.pname).Nodup) (p : Phase) (hp : p ∈ prior) :
    lastStatus prior p.pname = some p.pstatus := by
  induction prior with
  | nil => simp at hp
  | cons q rest ih =>
    rw [List.map_cons, List.nodup_cons] at hnd
    rcases List.mem_cons.mp hp with rfl | hmem
    · have hnone : lastStatus rest p.pname = none := by
        apply lastStatus_eq_none
        intro r hr hre
        exact hnd.1 (hre ▸ List.mem_map_of_mem Phase.pname hr)
      simp [lastStatus, hnone]
    · have := ih hnd.2 hmem
      simp [lastStatus, this]

theorem syncPhases_getD (phaseNames : List String) (prior : List Phase) :
    ∀ i, i < phaseNames.length →
      (syncPhases phaseNames prior).getD i ⟨"", ""⟩ =
        ⟨phaseNames.getD i "", (lastStatus prior (phaseNames.getD i "")).getD "planned"⟩ := by
  induction phaseNames with
  | nil => intro i hi; simp at hi
  | cons n rest ih =>
    intro i hi
    cases i with
    | zero => simp [syncPhases]
    | succ k =>
      have hk : k < rest.length := by simpa using hi
      simpa [syncPhases] using ih k hk

/-- C8: the reconciliation step of SyncPhasesToState rebuilds the tracked
phase list to exactly the discovered names in discovered order, preserving
the tracked status of every name already tracked (tracked names being
distinct), assigning planned to newly discovered names, and dropping names
no longer discovered. -/
theorem syncPhases_spec (phaseNames : List String) (prior : List Phase)
    (hnd : (prior.map Phase.pname).Nodup) :
    ((syncPhases phaseNames prior).map Phase.pname = phaseNames) ∧
    (∀ i, i < phaseNames.length →
      (∀ p ∈ prior, p.pname = phaseNames.getD i "" →
        (syncPhases phaseNames prior).getD i ⟨"", ""⟩ = ⟨phaseNames.getD i "", p.pstatus⟩) ∧
      ((∀ p ∈ prior, p.pname ≠ phaseNames.getD i "") →
        (syncPhases phaseNames prior).getD i ⟨"", ""⟩ = ⟨phaseNames.getD i "", "planned"⟩)) := by
  constructor
  · have hcomp : (Phase.pname ∘ fun n => (⟨n, (lastStatus prior n).getD "planned"⟩ : Phase)) = id := rfl
    simp [syncPhases, List.map_map, hcomp]
  · intro i hi
    constructor
    · intro p hp hpe
      rw [syncPhases_getD phaseNames prior i hi, ← hpe,
        lastStatus_of_mem_nodup prior hnd p hp]
      rfl
    · intro hnone
      rw [syncPhases_getD phaseNames prior i hi,
        lastStatus_eq_none prior _ hnone]
      rfl

theorem syncPhases_spec_witness :
    ((syncPhases ["1-setup", "3-ui"] [⟨"1-setup", "done"⟩, ⟨"2-api", "in-progress"⟩]).map Phase.pname
      = ["1-setup", "3-ui"]) ∧
    (syncPhases ["1-setup", "3-ui"] [⟨"1-setup", "done"⟩, ⟨"2-api", "in-progress"⟩]).getD 0 ⟨"", ""⟩
      = ⟨"1-setup", "done"⟩ ∧
    (syncPhases ["1-setup", "3-ui"] [⟨"1-setup", "done"⟩, ⟨"2-api", "in-progress"⟩]).getD 1 ⟨"", ""⟩
      = ⟨"3-ui", "planned"⟩ := by
  have h := syncPhases_spec ["1-setup", "3-ui"] [⟨"1-setup", "done"⟩, ⟨"2-api", "in-progress"⟩] (by decide)
  refine ⟨h.1, ?_, ?_⟩
  · exact (h.2 0 (by decide)).1 ⟨"1-setup", "done"⟩ (by decide) (by decide)
  · exact (h.2 1 (by decide)).2 (by decide)

def cexC2state : State :=
  ⟨"requirements", [("requirements", ⟨"approved", some 1, "auto", ""⟩)], [], false, "", 0,
   ["implementation", "requirements"], false⟩

/-- C2 counterexample: with the custom workflow [implementation,
requirements] (which ValidateWorkflow accepts), the current stage
requirements is final in the active workflow and its gate is approved, yet
AdvanceToNextStage does not fail with TerminalStage: the mode-based
fallback advances to design, a stage outside the workflow. -/
theorem advanceToNextStage_counterexample :
    cexC2state.CanAdvanceStage = true ∧
    cexC2state.GetNextStageInWorkflow cexC2state.currentStage = "" ∧
    (cexC2state.AdvanceToNextStage).2 = none ∧
    (cexC2state.AdvanceToNextStage).1.currentStage = "design" := by decide

/-- C2 amended: AdvanceToNextStage fails with IllegalTransition when the
current gate is missing or not approved; when approved it advances to the
workflow-aware next stage, falling back to the mode-based ordering when the
workflow yields none, opening the target gate and clearing its reason;
TerminalStage arises only when both orderings yield no successor. -/
theorem advanceToNextStage_spec (s : State) :
    ((∀ g, lookupGate s.gates s.currentStage = some g → g.status ≠ "approved") →
      s.AdvanceToNextStage = (s, some Err.illegalTransition)) ∧
    (∀ g, lookupGate s.gates s.currentStage = some g → g.status = "approved" →
      (s.GetNextStageInWorkflow s.currentStage = "" →
       GetNextStageForMode s.currentStage s.quickMode = "" →
        s.AdvanceToNextStage = (s, some Err.terminalStage)) ∧
      (∀ nxt, nxt = (if s.GetNextStageInWorkflow s.currentStage = ""
                     then GetNextStageForMode s.currentStage s.quickMode
                     else s.GetNextStageInWorkflow s.currentStage) → nxt ≠ "" →
        (s.AdvanceToNextStage).2 = none ∧
        (s.AdvanceToNextStage).1.currentStage = nxt ∧
        (∃ g', lookupGate (s.AdvanceToNextStage).1.gates nxt = some g' ∧
          g'.status = "open" ∧ g'.reason = "") ∧
        (s.AdvanceToNextStage).1.workflow = s.workflow ∧
        (s.AdvanceToNextStage).1.phases = s.phases ∧
        (s.AdvanceToNextStage).1.quickMode = s.quickMode)) := by
  constructor
  · intro hno
    have hcan : s.CanAdvanceStage = false := by
      unfold State.CanAdvanceStage
      rcases hlk : lookupGate s.gates s.currentStage with _ | g
      · rfl
      · simpa using hno g hlk
    rcases advance_shape s with ⟨_, heq⟩ | ⟨hc, _, _⟩ | ⟨hc, _, _⟩
    · exact heq
    · rw [hcan] at hc; exact absurd hc (by simp)
    · rw [hcan] at hc; exact absurd hc (by simp)
  · intro g hg hap
    have hcan : s.CanAdvanceStage = true := by
      unfold State.CanAdvanceStage
      rw [hg]
      simpa using hap
    constructor
    · intro hw hf
      have htgt : advTarget s = "" := by simp [advTarget, hw, hf]
      rcases advance_shape s with ⟨hc, _⟩ | ⟨_, _, heq⟩ | ⟨_, hne, _⟩
      · rw [hcan] at hc; exact absurd hc (by simp)
      · exact heq
      · exact absurd htgt hne
    · intro nxt hnxt hne
      have htgt : advTarget s = nxt := by simp [advTarget, hnxt]
      rcases advance_shape s with ⟨hc, _⟩ | ⟨_, htz, _⟩ | ⟨_, _, heq⟩
      · rw [hcan] at hc; exact absurd hc (by simp)
      · rw [htgt] at htz; exact absurd htz hne
      · rw [htgt] at heq
        rw [heq]
        refine ⟨rfl, rfl, ?_, rfl, rfl, rfl⟩
        show ∃ g', lookupGate (advGates s nxt) nxt = some g' ∧ g'.status = "open" ∧ g'.reason = ""
        unfold advGates
        rcases hlk : lookupGate s.gates nxt with _ | g0
        · exact ⟨⟨"open", none, "", ""⟩, lookupGate_updateGate_self s.gates nxt _, rfl, rfl⟩
        · exact ⟨{ g0 with status := "open", reason := "" },
            lookupGate_updateGate_self s.gates nxt _, rfl, rfl⟩

def wC2state : State :=
  ⟨"requirements", [("requirements", ⟨"approved", some 1, "human", ""⟩)], [], false, "", 0, [], false⟩

theorem advanceToNextStage_spec_witness :
    (wC2state.AdvanceToNextStage).2 = none ∧
    (wC2state.AdvanceToNextStage).1.currentStage = "design" := by
  have h := (advanceToNextStage_spec wC2state).2 ⟨"approved", some 1, "human", ""⟩ (by decide) rfl
  have h2 := h.2 "design" (by decide) (by decide)
  exact ⟨h2.1, h2.2.1⟩

def cexC1state : State :=
  ⟨"design", [("design", ⟨"open", none, "", ""⟩), ("implementation", ⟨"blocked", none, "", ""⟩)],
   [], true, "", 0, ["design", "implementation"], false⟩

/-- C1 counterexample: with the custom workflow [design, implementation]
and quick mode set (as NewWithWorkflow would set it for a two-stage
workflow), approving the current stage design succeeds but does not advance
even though the active workflow has implementation after design: ApproveGate
consults the mode-based GetNextStageForMode, in which design has no
successor. -/
theorem approveGate_counterexample :
    lookupGate cexC1state.gates "design" = some ⟨"open", none, "", ""⟩ ∧
    cexC1state.currentStage = "design" ∧
    cexC1state.GetNextStageInWorkflow "design" = "implementation" ∧
    (cexC1state.ApproveGate "design" "auto" 7).2 = none ∧
    (cexC1state.ApproveGate "design" "auto" 7).1.currentStage = "design" := by decide

/-- C1 amended: ApproveGate on an open or pending-review gate succeeds and
sets the gate approved with timestamp, approver and cleared reason; when
the stage is current, advancement runs exactly when GetNextStageForMode
(the mode-based ordering, not the active workflow) yields a successor, and
then the stage advanced to is the workflow-aware next stage with fallback
to the mode-based one, whose gate is opened with reason cleared. -/
theorem approveGate_spec (s : State) (stage approver : String) (now : Nat) (g : Gate)
    (hg : lookupGate s.gates stage = some g)
    (hst : g.status = "open" ∨ g.status = "pending-review") :
    ((s.ApproveGate stage approver now).2 = none) ∧
    (stage ≠ s.currentStage →
      s.ApproveGate stage approver now =
        ({ s with gates := updateGate s.gates stage ⟨"approved", some now, approver, ""⟩ }, none)) ∧
    (stage = s.currentStage → GetNextStageForMode stage s.quickMode = "" →
      s.ApproveGate stage approver now =
        ({ s with gates := updateGate s.gates stage ⟨"approved", some now, approver, ""⟩ }, none)) ∧
    (stage = s.currentStage → GetNextStageForMode stage s.quickMode ≠ "" →
      ∀ nxt, nxt = (if s.GetNextStageInWorkflow stage = ""
                    then GetNextStageForMode stage s.quickMode
                    else s.GetNextStageInWorkflow stage) →
        (s.ApproveGate stage approver now).1.currentStage = nxt ∧
        (∃ g', lookupGate (s.ApproveGate stage approver now).1.gates nxt = some g' ∧
          g'.status = "open" ∧ g'.reason = "") ∧
        (nxt ≠ stage →
          lookupGate (s.ApproveGate stage approver now).1.gates stage =
            some ⟨"approved", some now, approver, ""⟩)) := by
  have hok : ¬ (g.status ≠ "open" ∧ g.status ≠ "pending-review") := by tauto
  have happr : s.ApproveGate stage approver now =
      (if stage = s.currentStage then
        (if GetNextStageForMode stage s.quickMode ≠ "" then
          ({ s with gates := updateGate s.gates stage ⟨"approved", some now, approver, ""⟩ } : State).AdvanceToNextStage
         else ({ s with gates := updateGate s.gates stage ⟨"approved", some now, approver, ""⟩ }, none))
       else ({ s with gates := updateGate s.gates stage ⟨"approved", some now, approver, ""⟩ }, none)) := by
    unfold State.ApproveGate
    rw [hg]
    simp only [if_neg hok]
  by_cases hcur : stage = s.currentStage
  · rw [if_pos hcur] at happr
    by_cases hnext : GetNextStageForMode stage s.quickMode = ""
    · rw [if_neg (by simpa using hnext)] at happr
      exact ⟨by rw [happr], fun hc => absurd hcur hc, fun _ _ => happr,
        fun _ hc => absurd hnext hc⟩
    · rw [if_pos hnext] at happr
      set s' : State := { s with gates := updateGate s.gates stage ⟨"approved", some now, approver, ""⟩ } with hs'
      have hcs : s'.currentStage = stage := hcur.symm
      have hqm : s'.quickMode = s.quickMode := rfl
      have hwf0 : ∀ x, s'.GetNextStageInWorkflow x = s.GetNextStageInWorkflow x := fun _ => rfl
      have hlk' : lookupGate s'.gates s'.currentStage = some ⟨"approved", some now, approver, ""⟩ := by
        rw [hcs]
        exact lookupGate_updateGate_self s.gates stage _
      have hcan : s'.CanAdvanceStage = true := by
        unfold State.CanAdvanceStage
        rw [hlk']
        rfl
      have hmode : GetNextStageForMode s'.currentStage s'.quickMode ≠ "" := by
        rw [hcs, hqm]; exact hnext
      refine ⟨by rw [happr]; exact advance_no_err s' hcan hmode, fun hc => absurd hcur hc,
        fun _ hc => absurd hc hnext, fun _ _ nxt hnxt => ?_⟩
      have htgt : advTarget s' = nxt := by
        unfold advTarget
        rw [hcs, hwf0 stage, hqm, ← hnxt]
      have hne : nxt ≠ "" := by
        rw [hnxt]
        split_ifs with hw
        · exact hnext
        · exact hw
      rcases advance_shape s' with ⟨hc, _⟩ | ⟨_, htz, _⟩ | ⟨_, _, heq⟩
      · rw [hcan] at hc; exact absurd hc (by simp)
      · rw [htgt] at htz; exact absurd htz hne
      · rw [htgt] at heq
        rw [happr, heq]
        refine ⟨rfl, ?_, ?_⟩
        · show ∃ g', lookupGate (advGates s' nxt) nxt = some g' ∧ g'.status = "open" ∧ g'.reason = ""
          unfold advGates
          rcases hlk : lookupGate s'.gates nxt with _ | g0
          · exact ⟨⟨"open", none, "", ""⟩, lookupGate_updateGate_self s'.gates nxt _, rfl, rfl⟩
          · exact ⟨{ g0 with status := "open", reason := "" },
              lookupGate_updateGate_self s'.gates nxt _, rfl, rfl⟩
        · intro hnst
          show lookupGate (advGates s' nxt) stage = some ⟨"approved", some now, approver, ""⟩
          have hlk2 : lookupGate s'.gates stage = some ⟨"approved", some now, approver, ""⟩ :=
            lookupGate_updateGate_self s.gates stage _
          unfold advGates
          rcases hlk : lookupGate s'.gates nxt with _ | g0
          · rw [lookupGate_updateGate_ne s'.gates nxt stage _ (Ne.symm hnst)]
            exact hlk2
          · rw [lookupGate_updateGate_ne s'.gates nxt stage _ (Ne.symm hnst)]
            exact hlk2
  · rw [if_neg hcur] at happr
    exact ⟨by rw [happr], fun _ => happr, fun hc => absurd hc hcur, fun hc => absurd hc hcur⟩

theorem approveGate_spec_witness :
    ((NewDefault.ApproveGate "requirements" "auto" 3).2 = none) ∧
    ((NewDefault.ApproveGate "requirements" "auto" 3).1.currentStage = "design") ∧
    (∃ g', lookupGate (NewDefault.ApproveGate "requirements" "auto" 3).1.gates "design" = some g' ∧
      g'.status = "open") := by
  have h := approveGate_spec NewDefault "requirements" "auto" 3 ⟨"open", none, "", ""⟩
    (by decide) (Or.inl rfl)
  have h4 := h.2.2.2 rfl (by decide) "design" (by decide)
  exact ⟨h.1, h4.1, h4.2.1.elim (fun g' hg' => ⟨g', hg'.1, hg'.2.1⟩)⟩

def cexC3state : State :=
  ⟨"requirements",
   [("requirements", ⟨"approved", some 1, "human", ""⟩), ("design", ⟨"approved", some 2, "human", ""⟩)],
   [], false, "", 0, [], false⟩

/-- C3 counterexample: the metadata-iff-approved invariant is not preserved
by every gate operation: ApproveGate with an empty approver identity leaves
an approved gate with an empty approver; AdvanceToNextStage opens the next
gate without clearing its approval metadata; SetGateStatus to approved does
not populate metadata (breaking even the forward direction). -/
theorem gateInv_counterexample :
    (StateInv NewDefault ∧ ¬ StateInv (NewDefault.ApproveGate "requirements" "" 0).1) ∧
    (StateInv cexC3state ∧ ¬ StateInv (cexC3state.AdvanceToNextStage).1) ∧
    (¬ StateInv (NewDefault.SetGateStatus "requirements" "approved").1 ∧
     ¬ StateInvFwd (NewDefault.SetGateStatus "requirements" "approved").1) := by decide


/-- C3 amended: RejectGate, and SetGateStatus with a non-approved status,
preserve the full metadata-iff-approved invariant; ApproveGate preserves it
when the approver is non-empty and no advancement is triggered; with a
non-empty approver ApproveGate, and AdvanceToNextStage, preserve the
forward half (approved gates carry timestamp and approver), as do
RejectGate and non-approved SetGateStatus. -/
theorem gateOps_inv (s : State) (stage approver reason status : String) (now : Nat) :
    (StateInv s → StateInv (s.RejectGate stage reason).1) ∧
    (StateInv s → status ≠ "approved" → StateInv (s.SetGateStatus stage status).1) ∧
    (StateInv s → approver ≠ "" →
      (stage = s.currentStage → GetNextStageForMode stage s.quickMode = "") →
      StateInv (s.ApproveGate stage approver now).1) ∧
    (StateInvFwd s → approver ≠ "" → StateInvFwd (s.ApproveGate stage approver now).1) ∧
    (StateInvFwd s → StateInvFwd (s.AdvanceToNextStage).1) ∧
    (StateInvFwd s → StateInvFwd (s.RejectGate stage reason).1) ∧
    (StateInvFwd s → status ≠ "approved" → StateInvFwd (s.SetGateStatus stage status).1) := by
  refine ⟨fun hInv => ?_, fun hInv hne => ?_, fun hInv hap hnoadv => ?_, fun hF hap => ?_,
    fun hF => advance_preserves_fwd s hF, fun hF => ?_, fun hF hne => ?_⟩
  · unfold State.RejectGate
    rcases hlk : lookupGate s.gates stage with _ | g
    · exact hInv
    · dsimp only
      by_cases hp : g.status = "pending-review"
      · rw [if_neg (by simpa using hp)]
        intro p hpm
        rcases mem_updateGate _ _ _ _ hpm with rfl | hmem
        · simp [GateInv]
        · exact hInv p hmem
      · rw [if_pos (by simpa using hp)]
        exact hInv
  · unfold State.SetGateStatus
    by_cases hv : IsValidGateStatus status
    · rw [if_neg (by simpa using hv)]
      rcases hlk : lookupGate s.gates stage with _ | g
      · exact hInv
      · dsimp only
        intro p hpm
        simp only [if_pos hne] at hpm
        rcases mem_updateGate _ _ _ _ hpm with rfl | hmem
        · simp [GateInv, hne]
        · exact hInv p hmem
    · rw [if_pos (by simpa using hv)]
      exact hInv
  · rcases approve_shape s stage approver now with ⟨_, heq⟩ | ⟨g, _, _, _, heq⟩ | ⟨g, hg, hst, hcase⟩
    · rw [heq]; exact hInv
    · rw [heq]; exact hInv
    · rcases hcase with ⟨hcureq, hnexist, _⟩ | ⟨_, heq⟩
      · exact absurd (hnoadv hcureq) hnexist
      · rw [heq]
        intro p hpm
        rcases mem_updateGate _ _ _ _ hpm with rfl | hmem
        · simp [GateInv, hap]
        · exact hInv p hmem
  · rcases approve_shape s stage approver now with ⟨_, heq⟩ | ⟨g, _, _, _, heq⟩ | ⟨g, hg, hst, hcase⟩
    · rw [heq]; exact hF
    · rw [heq]; exact hF
    · have hF' : StateInvFwd
          ({ s with gates := updateGate s.gates stage ⟨"approved", some now, approver, ""⟩ } : State) := by
        intro p hpm
        rcases mem_updateGate _ _ _ _ hpm with rfl | hmem
        · exact fun _ => ⟨by simp, hap⟩
        · exact hF p hmem
      rcases hcase with ⟨_, _, heq⟩ | ⟨_, heq⟩
      · rw [heq]; exact advance_preserves_fwd _ hF'
      · rw [heq]; exact hF'
  · unfold State.RejectGate
    rcases hlk : lookupGate s.gates stage with _ | g
    · exact hF
    · dsimp only
      by_cases hp : g.status = "pending-review"
      · rw [if_neg (by simpa using hp)]
        intro p hpm
        rcases mem_updateGate _ _ _ _ hpm with rfl | hmem
        · intro hap2; exact absurd hap2 (by simp)
        · exact hF p hmem
      · rw [if_pos (by simpa using hp)]
        exact hF
  · unfold State.SetGateStatus
    by_cases hv : IsValidGateStatus status
    · rw [if_neg (by simpa using hv)]
      rcases hlk : lookupGate s.gates stage with _ | g
      · exact hF
      · dsimp only
        intro p hpm
        simp only [if_pos hne] at hpm
        rcases mem_updateGate _ _ _ _ hpm with rfl | hmem
        · intro hap2; exact absurd hap2 hne
        · exact hF p hmem
    · rw [if_pos (by simpa using hv)]
      exact hF

def wC3state : State :=
  ⟨"requirements", [("requirements", ⟨"pending-review", none, "", ""⟩)], [], false, "", 0, [], false⟩

theorem gateOps_inv_witness :
    StateInv (wC3state.RejectGate "requirements" "needs work").1 :=
  (gateOps_inv wC3state "requirements" "human" "needs work" "open" 0).1 (by decide)

end Foreman
